import Mathlib

/-!
Shallow embedding of the minesweeper deduction engine from the repository
AlterionX/minesweeper, covering the code paths referenced by the claims:
`src/board.rs` (cell model, neighbor enumeration), `src/solver.rs`
(`Solver::region_around`, `Solver::board_region`, `Solver::extract_regions`,
`Solver::strip_zero_regions_from`, `Solver::establish_regional_links`,
`LinkedSubRegion::remove_mines` and `remove_empty`,
`Solver::calculate_known_cells`) and `src/solver/region.rs`
(`Region::board`; `LinkedSubRegion::deduce_links` there is textually the same
computation as `Solver::establish_regional_links`).

Rust `usize` arithmetic is modelled over `Nat`; every subtraction the Rust
code performs unguarded is modelled with an explicit underflow check that
raises the same failure a debug build raises (a panic), embedded as
`Except.error`.  `assert!` failures, the `panic!` arm for an exploded mine
and slice-index misses are likewise `Except.error` with distinct messages.
`IndexSet` keeps its elements in insertion order and deduplicates on
`insert`, so it is modelled as a `List` together with the operations
`listInsert` (append when absent), `listCollect` (insert each element in
order), `listExtend`, `listDiff`, `listInter` and `filter` for `retain`;
`len` is `List.length` and `pop` on a just-checked singleton yields its
unique element.
-/

deriving instance DecidableEq for Except

abbrev Loc := Nat × Nat

/-- `IndexSet::insert`: append the element when absent, keep the order. -/
def listInsert {α : Type} [DecidableEq α] (s : List α) (a : α) : List α :=
  if a ∈ s then s else s ++ [a]

/-- Collecting an iterator into an `IndexSet`: insert every element in
order, deduplicating while keeping first occurrences. -/
def listCollect {α : Type} [DecidableEq α] (l : List α) : List α :=
  l.foldl listInsert []

/-- `IndexSet::extend`: insert every element of `l` into `s` in order. -/
def listExtend {α : Type} [DecidableEq α] (s l : List α) : List α :=
  l.foldl listInsert s

/-- `aa.difference(&bb).cloned().collect()`: the elements of `aa` not in
`bb`, in the order of `aa`. -/
def listDiff {α : Type} [DecidableEq α] (aa bb : List α) : List α :=
  aa.filter (fun a => !decide (a ∈ bb))

/-- `aa.intersection(&bb).cloned().collect()`: the elements of `aa` also in
`bb`, in the order of `aa`. -/
def listInter {α : Type} [DecidableEq α] (aa bb : List α) : List α :=
  aa.filter (fun a => decide (a ∈ bb))

inductive CellCategory where
  | Mine : CellCategory
  | Empty : Option Nat → CellCategory
deriving DecidableEq, Repr

inductive CellState where
  | Hidden : CellState
  | Marked : CellState
  | Visible : CellState
deriving DecidableEq, Repr

structure Cell where
  state : CellState
  category : CellCategory
deriving DecidableEq, Repr

/-- Mirror of `Board`: the cell grid indexed as `cells[row][col]`, plus the
`dims = (w, h)` pair that `Board` stores alongside it. -/
structure Board where
  cells : List (List Cell)
  dimW : Nat
  dimH : Nat
deriving DecidableEq, Repr

/-- Panic message for a slice index miss (`self.board.cells[row][col]` out
of range, reachable because `board_locs` iterates `(0..h) x (0..w)` but
reads the pair as `(col, row)`). -/
def oobMsg : String := "index out of bounds"

/-- Panic message of `Solver::region_around` for a revealed mine. -/
def explodedMineMsg : String := "did not expect an exploded mine"

/-- Message of `assert!(num_watched_mines != 0)` in `region_around`. -/
def overMarkAssertMsg : String := "assertion failed: num_watched_mines != 0"

/-- Message of `assert!(num_flagged < num_mines)` in `Region::board`. -/
def flagAssertMsg : String := "assertion failed: flagged less than mined"

/-- Debug-build panic message for `usize` subtraction underflow. -/
def subUnderflowMsg : String := "attempt to subtract with overflow"

/-- Message of `assert!(self.mine_sets.len() != 1)` in
`LinkedSubRegion::remove_empty`. -/
def emptySetAssertMsg : String := "assertion failed: an empty set should be impossible"

/-- Marker for a run of the propagation loop that consumed all its fuel:
the Rust `while let` loop would still be running. -/
def fuelMsg : String := "propagation loop did not terminate"

/-- `self.board.cells[row][col]` for `loc = (col, row)`, `none` when the
index is out of range. -/
def cellAt (b : Board) (loc : Loc) : Option Cell :=
  (b.cells.get? loc.2).bind (fun row => row.get? loc.1)

/-- Mirror of `Board::surroundings_of`: offsets `(i % 3, i / 3)` for
`i in 0..9`, dropping `(1, 1)` and any offset that would step over an edge,
then mapped onto neighbor coordinates.  The edge filters guard every
decrement, so the `Nat` subtractions below never truncate. -/
def surroundingsOf (b : Board) (loc : Loc) : List Loc :=
  (((List.range 9).map (fun i => (i % 3, i / 3))).filter (fun off =>
      !(off == ((1 : Nat), (1 : Nat)))
      && !(off.1 == 0 && loc.1 == 0)
      && !(off.1 == 2 && loc.1 == b.dimW - 1)
      && !(off.2 == 0 && loc.2 == 0)
      && !(off.2 == 2 && loc.2 == b.dimH - 1))).map
    (fun off =>
      (match off.1 with
        | 0 => loc.1 - 1
        | 2 => loc.1 + 1
        | _ => loc.1,
       match off.2 with
        | 0 => loc.2 - 1
        | 2 => loc.2 + 1
        | _ => loc.2))

/-- Mirror of the `Region` struct of `src/solver.rs`: a definite number of
mines spread over a set of hidden locations. -/
structure Region where
  mines : Nat
  hidden : List Loc
deriving DecidableEq, Repr

/-- Mirror of `Solver::board_locs`:
`(0..h).cartesian_product(0..w)` in lexicographic order.  The callers
destructure each emitted pair as `(col, row)` even though the first
component ranges over `0..h`; the transposition is preserved faithfully. -/
def boardLocs (b : Board) : List Loc :=
  (List.range b.dimH).flatMap (fun a => (List.range b.dimW).map (fun c => (a, c)))

/-- Mirror of `Solver::region_around`.  Returns `ok none` for a sentinel
that contributes no region, `error` where the Rust code panics: a revealed
mine, the `assert!(num_watched_mines != 0)` when a marked neighbor is found
with the count already at zero, and an out-of-range index. -/
def regionAround (b : Board) (loc : Loc) : Except String (Option Region) :=
  match cellAt b loc with
  | none => .error oobMsg
  | some sentinel =>
    if sentinel.state ≠ CellState.Visible then .ok none
    else
      match sentinel.category with
      | CellCategory.Empty none => .ok none
      | CellCategory.Mine => .error explodedMineMsg
      | CellCategory.Empty (some n) => do
        let acc ← (surroundingsOf b loc).foldlM
          (fun (acc : Nat × List Loc) watchedLoc => do
            match cellAt b watchedLoc with
            | none => .error oobMsg
            | some watched =>
              match watched.state with
              | CellState.Visible => pure acc
              | CellState.Marked =>
                  if acc.1 = 0 then .error overMarkAssertMsg
                  else pure (acc.1 - 1, acc.2)
              | CellState.Hidden => pure (acc.1, listInsert acc.2 watchedLoc))
          (n, ([] : List Loc))
        pure (some ⟨acc.1, acc.2⟩)

/-- Mirror of `Solver::board_region`: walk `board_locs`, count the hidden
cells whose category is `Mine` and collect every hidden location. -/
def boardRegion (b : Board) : Except String Region :=
  (boardLocs b).foldlM
    (fun (acc : Region) loc => do
      match cellAt b loc with
      | none => .error oobMsg
      | some cell =>
        match cell.state with
        | CellState.Visible => pure acc
        | CellState.Marked => pure acc
        | CellState.Hidden =>
            pure ⟨acc.mines + (if cell.category = CellCategory.Mine then 1 else 0),
                  listInsert acc.hidden loc⟩)
    ⟨0, []⟩

/-- Mirror of `Solver::extract_regions`: the global board region first, then
one region per sentinel location that yields one. -/
def extractRegions (b : Board) : Except String (List Region) := do
  let r0 ← boardRegion b
  let rest ← (boardLocs b).foldlM
    (fun (acc : List Region) loc => do
      match ← regionAround b loc with
      | some r => pure (acc ++ [r])
      | none => pure acc)
    []
  pure (r0 :: rest)

/-- Modelled from the spec: `Region::board` in `src/solver/region.rs` calls
`board.all_locs()`, which is absent from `src/board.rs`.  Per the
specification a Location is a plain integer pair used as a set element, and
the global region ranges over every Location of the board; `Region::board`
destructures each emitted pair as `(row, col)` and indexes
`cells[row][col]`, so `all_locs` is modelled as all `(row, col)` pairs in
row-major order. -/
def allLocs (b : Board) : List Loc :=
  (List.range b.dimH).flatMap (fun r => (List.range b.dimW).map (fun c => (r, c)))

/-- Mirror of `Region::board` in `src/solver/region.rs`: count every cell
whose category is `Mine`, count every marked cell, collect hidden locations,
assert `num_flagged < num_mines`, return `num_mines - num_flagged`. -/
def regionBoard (b : Board) : Except String Region := do
  let acc ← (allLocs b).foldlM
    (fun (acc : Nat × Nat × List Loc) loc => do
      match (b.cells.get? loc.1).bind (fun row => row.get? loc.2) with
      | none => .error oobMsg
      | some cell =>
        let numMines := acc.1 + (if cell.category = CellCategory.Mine then 1 else 0)
        match cell.state with
        | CellState.Visible => pure (numMines, acc.2.1, acc.2.2)
        | CellState.Marked => pure (numMines, acc.2.1 + 1, acc.2.2)
        | CellState.Hidden => pure (numMines, acc.2.1, listInsert acc.2.2 loc))
    (0, 0, ([] : List Loc))
  if acc.2.1 < acc.1 then pure ⟨acc.1 - acc.2.1, acc.2.2⟩
  else .error flagAssertMsg

/-- Mirror of `StrippedRegions` in `src/solver.rs`. -/
structure StrippedRegions where
  zeroLocs : List Loc
  regions : List Region
deriving DecidableEq, Repr

/-- Mirror of `Solver::strip_zero_regions_from`.  The Rust partition loop is

`if r.mines == 0 { nonzero.push(r) } else { zero.push(r) }`

so the list named `zero` actually receives the regions whose `mines` is
nonzero, and `zero_locs` collects the hidden cells of those regions, while
the residual `regions` are the ones with `mines == 0`, each with `zero_locs`
filtered out of its hidden set.  This swap is preserved faithfully. -/
def stripZeroRegionsFrom (rr : List Region) : StrippedRegions :=
  let zero := rr.filter (fun r => !(r.mines == 0))
  let nonzero := rr.filter (fun r => r.mines == 0)
  let zeroLocs := listCollect (zero.flatMap (fun r => r.hidden))
  { zeroLocs := zeroLocs,
    regions := nonzero.map
      (fun r => ⟨r.mines, r.hidden.filter (fun l => !decide (l ∈ zeroLocs))⟩) }

/-- Mirror of the `LinkedSubRegion` struct. -/
structure LinkedSubRegion where
  mineSets : List (Nat × Nat × Nat)
  r0 : List Loc
  rs : List Loc
  r1 : List Loc
deriving DecidableEq, Repr

/-- Mirror of `split_sets`: set difference, intersection, difference. -/
def splitSets {α : Type} [DecidableEq α] (aa bb : List α) :
    List α × List α × List α :=
  (listDiff aa bb, listInter aa bb, listDiff bb aa)

/-- Mirror of the `for rs_mines in rs_min..=rs_max` loop in
`Solver::establish_regional_links` (= `LinkedSubRegion::deduce_links`): each
iteration computes `p0_mines - rs_mines` and `p1_mines - rs_mines` on
`usize`, which panics in a debug build as soon as `rs_mines` exceeds either
parent mine count. -/
def linkageLoop (p0m p1m : Nat) : List Nat → List (Nat × Nat × Nat) →
    Except String (List (Nat × Nat × Nat))
  | [], acc => .ok acc
  | ms :: rest, acc =>
    if p0m < ms then .error subUnderflowMsg
    else if p1m < ms then .error subUnderflowMsg
    else linkageLoop p0m p1m rest (listInsert acc (p0m - ms, ms, p1m - ms))

/-- Mirror of `Solver::establish_regional_links` (textually the same
computation as `LinkedSubRegion::deduce_links` in `src/solver/region.rs`):
split the parents into exclusive and shared zones, return `none` on empty
overlap, otherwise enumerate the shared-mine counts from

`rs_min = max(if p0 < len r0 then 0 else p0 - len r0, if p1 < len r1 then 0 else p1 - len r1)`

up to `rs_max = rs_num_hidden.max(p0_mines).max(p1_mines)` - the code takes
a maximum, not a minimum, of the three upper bounds its own comment
lists. -/
def establishRegionalLinks (p0 p1 : Region) :
    Except String (Option LinkedSubRegion) :=
  let split := splitSets p0.hidden p1.hidden
  let r0Hidden := split.1
  let rsHidden := split.2.1
  let r1Hidden := split.2.2
  if rsHidden.length = 0 then .ok none
  else
    let rsMaxMines := max (max rsHidden.length p0.mines) p1.mines
    let rsMinMines := max
      (if p0.mines < r0Hidden.length then 0 else p0.mines - r0Hidden.length)
      (if p1.mines < r1Hidden.length then 0 else p1.mines - r1Hidden.length)
    match linkageLoop p0.mines p1.mines
        (List.range' rsMinMines (rsMaxMines + 1 - rsMinMines)) [] with
    | .error e => .error e
    | .ok linkages => .ok (some ⟨linkages, r0Hidden, rsHidden, r1Hidden⟩)

/-- The pair sequence `regions.iter().enumerate().flat_map(|(i, p0)| regions[i..].iter().map(|p1| (p0, p1)))`:
every region paired with itself and with each later region, in order. -/
def allPairs : List Region → List (Region × Region)
  | [] => []
  | r :: rest => ((r :: rest).map (fun p1 => (r, p1))) ++ allPairs rest

/-- The `filter_map(establish_regional_links).collect::<VecDeque<_>>()`
step: fold the pair list, keeping each produced link in order and
propagating the first panic. -/
def collectLinks : List (Region × Region) → List LinkedSubRegion →
    Except String (List LinkedSubRegion)
  | [], acc => .ok acc
  | pr :: rest, acc =>
    match establishRegionalLinks pr.1 pr.2 with
    | .error e => .error e
    | .ok none => collectLinks rest acc
    | .ok (some l) => collectLinks rest (acc ++ [l])

/-- Link construction of `Solver::calculate_known_cells`. -/
def buildLinks (regions : List Region) : Except String (List LinkedSubRegion) :=
  collectLinks (allPairs regions) []

/-- Mirror of `LinkedSubRegion::remove_mines`: `retain` the locations out
of each zone, then keep only the triples componentwise at least the removal
counts and subtract those counts.  The filter guards every subtraction, so
this function is total; in particular a `mine_sets` that becomes empty is
returned silently. -/
def lsrRemoveMines (l : LinkedSubRegion) (locs : List Loc) : LinkedSubRegion :=
  let r0N := l.r0.filter (fun x => !decide (x ∈ locs))
  let rsN := l.rs.filter (fun x => !decide (x ∈ locs))
  let r1N := l.r1.filter (fun x => !decide (x ∈ locs))
  let r0Rem := l.r0.length - r0N.length
  let rsRem := l.rs.length - rsN.length
  let r1Rem := l.r1.length - r1N.length
  { mineSets := listCollect ((l.mineSets.filter
      (fun t => decide (r0Rem ≤ t.1 ∧ rsRem ≤ t.2.1 ∧ r1Rem ≤ t.2.2))).map
      (fun t => (t.1 - r0Rem, t.2.1 - rsRem, t.2.2 - r1Rem))),
    r0 := r0N, rs := rsN, r1 := r1N }

/-- Mirror of `LinkedSubRegion::remove_empty`: `retain` the locations out
of each zone, keep only the triples that still fit the shrunken zone sizes,
then run `assert!(self.mine_sets.len() != 1)` - the assert panics exactly
when one triple remains and passes an empty `mine_sets` through silently. -/
def lsrRemoveEmpty (l : LinkedSubRegion) (locs : List Loc) :
    Except String LinkedSubRegion :=
  let r0N := l.r0.filter (fun x => !decide (x ∈ locs))
  let rsN := l.rs.filter (fun x => !decide (x ∈ locs))
  let r1N := l.r1.filter (fun x => !decide (x ∈ locs))
  let mineSets := l.mineSets.filter
    (fun t => decide (t.1 ≤ r0N.length ∧ t.2.1 ≤ rsN.length ∧ t.2.2 ≤ r1N.length))
  if mineSets.length = 1 then .error emptySetAssertMsg
  else .ok ⟨mineSets, r0N, rsN, r1N⟩

/-- Mirror of `Region::remove_mine_locs`: remove the locations from
`hidden` and subtract the number actually removed from `mines` - an
unguarded `usize` subtraction. -/
def regionRemoveMineLocs (r : Region) (locs : List Loc) : Except String Region :=
  let hiddenN := r.hidden.filter (fun x => !decide (x ∈ locs))
  let removed := r.hidden.length - hiddenN.length
  if r.mines < removed then .error subUnderflowMsg
  else .ok ⟨r.mines - removed, hiddenN⟩

/-- Mirror of `Region::remove_empty_locs`. -/
def regionRemoveEmptyLocs (r : Region) (locs : List Loc) : Region :=
  ⟨r.mines, r.hidden.filter (fun x => !decide (x ∈ locs))⟩

/-- Mirror of the `while let Some(link) = links.pop_front()` loop of
`Solver::calculate_known_cells`, with explicit fuel standing in for the
missing termination argument.  A link whose `mine_sets` is a singleton is
consumed: each zone whose forced count is zero goes to the safe set, each
zone whose forced count equals its size goes to the mine set - except that
the shared-zone branch extends the mine set with `r1`, not `rs`, exactly as
line 345 of `src/solver.rs` does -, and the resolved locations are applied
to the remaining links and regions.  Any other link is pushed to the back
of the queue unchanged. -/
def propLoop : Nat → List LinkedSubRegion → List Region → List Loc → List Loc →
    Except String (List Loc × List Loc)
  | _, [], _, zeroLocs, mineLocs => .ok (zeroLocs, mineLocs)
  | 0, _ :: _, _, _, _ => .error fuelMsg
  | fuel + 1, link :: rest, regions, zeroLocs, mineLocs =>
    match link.mineSets with
    | [(m0, ms, m1)] =>
      let z0 := if m0 = 0 then listExtend [] link.r0 else []
      let mn0 := if m0 = 0 then []
        else if m0 = link.r0.length then listExtend [] link.r0 else []
      let z1 := if m1 = 0 then listExtend z0 link.r1 else z0
      let mn1 := if m1 = 0 then mn0
        else if m1 = link.r1.length then listExtend mn0 link.r1 else mn0
      let linkZero := if ms = 0 then listExtend z1 link.rs else z1
      let linkMine := if ms = 0 then mn1
        else if ms = link.rs.length then listExtend mn1 link.r1 else mn1
      match rest.mapM (fun l => lsrRemoveEmpty (lsrRemoveMines l linkMine) linkZero) with
      | .error e => .error e
      | .ok rest2 =>
        match regions.mapM (fun r => do
            let r2 ← regionRemoveMineLocs r linkMine
            pure (regionRemoveEmptyLocs r2 linkZero)) with
        | .error e => .error e
        | .ok regions2 =>
            propLoop fuel rest2 regions2 (listExtend zeroLocs linkZero)
              (listExtend mineLocs linkMine)
    | _ => propLoop fuel (rest ++ [link]) regions zeroLocs mineLocs

/-- Mirror of `KnownCells`. -/
structure KnownCells where
  empty : List Loc
  mines : List Loc
deriving DecidableEq, Repr

/-- The pipeline of `Solver::calculate_known_cells` up to and including the
propagation loop: extraction, stripping, linking, propagation, yielding the
accumulated `(zero_locs, mine_locs)` pair. -/
def solverAccumulated (b : Board) : Except String (List Loc × List Loc) := do
  let regions ← extractRegions b
  let links ← buildLinks (stripZeroRegionsFrom regions).regions
  propLoop (links.length + 1) links (stripZeroRegionsFrom regions).regions
    (stripZeroRegionsFrom regions).zeroLocs []

/-- Mirror of `Solver::calculate_known_cells`: run the pipeline, then
return `ok none` when both accumulated sets are empty and `ok (some ..)`
otherwise. -/
def calculateKnownCells (b : Board) : Except String (Option KnownCells) := do
  let acc ← solverAccumulated b
  if acc.1 = [] ∧ acc.2 = [] then pure none
  else pure (some ⟨acc.1, acc.2⟩)

/-- The safe set carried by a solver result: the `empty` field of the
returned `KnownCells`, or the empty set when no `KnownCells` was
returned. -/
def knownSafe : Option KnownCells → List Loc
  | none => []
  | some kc => kc.empty

/-- The feasible-triple set prescribed by the specification for
`deduceLink(A, B)`: the triples
`(A.requiredMines - ms, ms, B.requiredMines - ms)` for `ms` from
`ms_min = max(0, A.requiredMines - len r0, B.requiredMines - len r1)` to
`ms_max = min(len rs, A.requiredMines, B.requiredMines)`.  Stated from the
words of the spec for comparison against `establishRegionalLinks`. -/
def specFeasibleTriples (A B : Region) : List (Nat × Nat × Nat) :=
  let r0 := listDiff A.hidden B.hidden
  let rs := listInter A.hidden B.hidden
  let r1 := listDiff B.hidden A.hidden
  let msMin := max 0 (max (A.mines - r0.length) (B.mines - r1.length))
  let msMax := min rs.length (min A.mines B.mines)
  listCollect ((List.range (msMax + 1 - msMin)).map
    (fun k => (A.mines - (msMin + k), msMin + k, B.mines - (msMin + k))))

/-- Number of cells of the grid whose category is `Mine` (the board total
mine count of the spec formula). -/
def totalMineCount (b : Board) : Nat :=
  (b.cells.flatten.filter (fun c => c.category == CellCategory.Mine)).length

/-- Number of cells of the grid whose state is `Marked`. -/
def markedCellCount (b : Board) : Nat :=
  (b.cells.flatten.filter (fun c => c.state == CellState.Marked)).length

/-- A revealed cell displaying the number `n`. -/
def vN (n : Nat) : Cell := ⟨CellState.Visible, CellCategory.Empty (some n)⟩

/-- A revealed blank cell (no adjacent mines). -/
def v0 : Cell := ⟨CellState.Visible, CellCategory.Empty none⟩

/-- A hidden mine. -/
def hM : Cell := ⟨CellState.Hidden, CellCategory.Mine⟩

/-- A hidden non-mine cell adjacent to `n` mines. -/
def hEN (n : Nat) : Cell := ⟨CellState.Hidden, CellCategory.Empty (some n)⟩

/-- A flagged cell that is not a mine (a wrong flag on a blank). -/
def mkE : Cell := ⟨CellState.Marked, CellCategory.Empty none⟩

/-- A flagged cell that is not a mine but is adjacent to `n` mines. -/
def mkEN (n : Nat) : Cell := ⟨CellState.Marked, CellCategory.Empty (some n)⟩

/-- A correctly flagged mine. -/
def mkM : Cell := ⟨CellState.Marked, CellCategory.Mine⟩

/-- A 1 x 1 board with a single revealed blank cell. -/
def trivialBoard : Board := ⟨[[v0]], 1, 1⟩

/-- 2 x 2 board: a revealed 1 at (0,0), a wrong flag at (1,0) and two
hidden mines at (0,1) and (1,1). -/
def boardC : Board := ⟨[[vN 1, mkE], [hM, hM]], 2, 2⟩

/-- 2 x 2 board: a revealed 3 at (0,0), its three neighbors all hidden
mines. -/
def boardG : Board := ⟨[[vN 3, hM], [hM, hM]], 2, 2⟩

/-- Well-formed, contradiction-free 2 x 2 board: the single mine at (0,0)
is correctly flagged, the revealed cells show the correct count 1 and the
remaining cell (1,1) is a hidden non-mine. -/
def boardD : Board := ⟨[[mkM, vN 1], [vN 1, hEN 1]], 2, 2⟩

/-- 2 x 2 board whose revealed 1 at (0,0) has two marked neighbors: a flag
overcount. -/
def boardE : Board := ⟨[[vN 1, mkE], [mkE, v0]], 2, 2⟩

/-- 2 x 2 board with one hidden mine at (0,0) and one wrong flag at (1,0):
total mine count 1, marked count 1. -/
def boardF : Board := ⟨[[hM, mkEN 1], [vN 1, vN 1]], 2, 2⟩

lemma exceptBind_ok {ε α β : Type} (a : α) (f : α → Except ε β) :
    (Except.ok a >>= f) = f a := rfl

lemma exceptBind_err {ε α β : Type} (e : ε) (f : α → Except ε β) :
    ((Except.error e : Except ε α) >>= f) = Except.error e := rfl

lemma exceptPure_eq {ε α : Type} (a : α) : (pure a : Except ε α) = Except.ok a := rfl

/-- Intersecting a list with itself keeps every element. -/
lemma listInter_self {α : Type} [DecidableEq α] (l : List α) :
    listInter l l = l :=
  List.filter_eq_self.mpr (fun a ha => by simp [ha])

/-- Every residual region of the (swapped) strip step has `mines = 0`. -/
lemma mem_strip_regions_mines_zero {rr : List Region} {q : Region}
    (h : q ∈ (stripZeroRegionsFrom rr).regions) : q.mines = 0 := by
  unfold stripZeroRegionsFrom at h
  simp only [List.mem_map, List.mem_filter] at h
  obtain ⟨a, ⟨_, ha⟩, rfl⟩ := h
  simpa using ha

/-- The linkage loop of two zero-mine parents over a non-empty shared zone
panics at `ms = 1`: it computes `0 - 1` on `usize`. -/
lemma linkageLoop_zero_parents_err {c : Nat} (hc : 1 ≤ c)
    (acc : List (Nat × Nat × Nat)) :
    linkageLoop 0 0 (List.range' 0 (c + 1)) acc = .error subUnderflowMsg := by
  obtain ⟨k, rfl⟩ := Nat.exists_eq_add_of_le hc
  rw [show 1 + k + 1 = (k + 1) + 1 by omega, List.range'_succ, List.range'_succ]
  simp [linkageLoop]

/-- `establish_regional_links` on two zero-mine regions either returns no
link (empty overlap) or panics; in particular a successful call certifies
that the parents share no hidden cell. -/
lemma establish_zero_zero {p0 p1 : Region} (h0 : p0.mines = 0) (h1 : p1.mines = 0)
    {res : Option LinkedSubRegion}
    (h : establishRegionalLinks p0 p1 = .ok res) :
    res = none ∧ listInter p0.hidden p1.hidden = [] := by
  simp only [establishRegionalLinks, splitSets] at h
  by_cases hc : (listInter p0.hidden p1.hidden).length = 0
  · rw [if_pos hc] at h
    cases h
    exact ⟨rfl, List.length_eq_zero.mp hc⟩
  · exfalso
    rw [if_neg hc] at h
    rw [h0, h1] at h
    simp only [Nat.zero_sub, ite_self, Nat.max_self, Nat.max_zero, Nat.sub_zero] at h
    rw [linkageLoop_zero_parents_err (by omega) []] at h
    cases h

/-- Membership in the pair sequence implies membership of both components
in the region list. -/
lemma mem_allPairs {l : List Region} {pr : Region × Region}
    (h : pr ∈ allPairs l) : pr.1 ∈ l ∧ pr.2 ∈ l := by
  induction l with
  | nil => simp [allPairs] at h
  | cons r rest ih =>
    simp only [allPairs, List.mem_append, List.mem_map] at h
    rcases h with ⟨p1, hp1, rfl⟩ | h
    · exact ⟨List.mem_cons_self r rest, hp1⟩
    · obtain ⟨ha, hb⟩ := ih h
      exact ⟨List.mem_cons_of_mem r ha, List.mem_cons_of_mem r hb⟩

/-- The pair sequence contains the self pair of every region:
`regions[i..]` starts at index `i`. -/
lemma self_mem_allPairs {l : List Region} {a : Region} (h : a ∈ l) :
    (a, a) ∈ allPairs l := by
  induction l with
  | nil => simp at h
  | cons r rest ih =>
    rcases List.mem_cons.mp h with rfl | h
    · exact List.mem_append_left _ (List.mem_map_of_mem _ (List.mem_cons_self a rest))
    · exact List.mem_append_right _ (ih h)

/-- If link collection completes, every pair was established without a
panic. -/
lemma collectLinks_ok_forall {pairs : List (Region × Region)}
    {acc L : List LinkedSubRegion} (h : collectLinks pairs acc = .ok L) :
    ∀ pr ∈ pairs, ∃ res, establishRegionalLinks pr.1 pr.2 = .ok res := by
  induction pairs generalizing acc with
  | nil => intro pr hpr; simp at hpr
  | cons p ps ih =>
    intro pr hpr
    unfold collectLinks at h
    cases he : establishRegionalLinks p.1 p.2 with
    | error e => rw [he] at h; cases h
    | ok res =>
      rw [he] at h
      rcases List.mem_cons.mp hpr with rfl | hpr2
      · exact ⟨res, he⟩
      · cases res with
        | none => exact ih h pr hpr2
        | some l => exact ih h pr hpr2

/-- If every pair establishes no link, collection returns its
accumulator. -/
lemma collectLinks_ok_acc {pairs : List (Region × Region)}
    {acc L : List LinkedSubRegion}
    (hall : ∀ pr ∈ pairs, establishRegionalLinks pr.1 pr.2 = .ok none)
    (h : collectLinks pairs acc = .ok L) : L = acc := by
  induction pairs generalizing acc with
  | nil => cases h; rfl
  | cons p ps ih =>
    unfold collectLinks at h
    rw [hall p (List.mem_cons_self p ps)] at h
    exact ih (fun pr hpr => hall pr (List.mem_cons_of_mem p hpr)) h

/-- Key consequence of the swapped strip step: when the link-building phase
of `calculate_known_cells` completes without a panic, the link queue is
empty and every residual region has an empty hidden set, because every
residual region has zero mines and any overlap - including each region with
itself - would have made the linkage loop underflow. -/
lemma buildLinks_strip_ok {rr : List Region} {links : List LinkedSubRegion}
    (h : buildLinks (stripZeroRegionsFrom rr).regions = .ok links) :
    links = [] ∧ ∀ q ∈ (stripZeroRegionsFrom rr).regions, q.hidden = [] := by
  unfold buildLinks at h
  have hz : ∀ q ∈ (stripZeroRegionsFrom rr).regions, q.mines = 0 :=
    fun q hq => mem_strip_regions_mines_zero hq
  have hok := collectLinks_ok_forall h
  have hnone : ∀ pr ∈ allPairs (stripZeroRegionsFrom rr).regions,
      establishRegionalLinks pr.1 pr.2 = .ok none := by
    intro pr hpr
    obtain ⟨res, hres⟩ := hok pr hpr
    obtain ⟨hm1, hm2⟩ := mem_allPairs hpr
    obtain ⟨hrn, _⟩ := establish_zero_zero (hz _ hm1) (hz _ hm2) hres
    rw [hres, hrn]
  have hempty : ∀ q ∈ (stripZeroRegionsFrom rr).regions, q.hidden = [] := by
    intro q hq
    obtain ⟨res, hres⟩ := hok _ (self_mem_allPairs hq)
    obtain ⟨_, hint⟩ := establish_zero_zero (hz _ hq) (hz _ hq) hres
    rwa [listInter_self] at hint
  exact ⟨collectLinks_ok_acc hnone h, hempty⟩

/-- The propagation loop on an empty queue returns at once, for any fuel. -/
lemma propLoop_nil (fuel : Nat) (regions : List Region) (z m : List Loc) :
    propLoop fuel [] regions z m = .ok (z, m) := by
  cases fuel <;> rfl

/-- Successful runs of the pipeline: extraction succeeded, the accumulated
safe set is the strip-phase set, the accumulated mine set is empty, and
every residual region ended with an empty hidden set. -/
lemma solverAccumulated_ok {b : Board} {z m : List Loc}
    (h : solverAccumulated b = .ok (z, m)) :
    ∃ rr, extractRegions b = .ok rr ∧
      z = (stripZeroRegionsFrom rr).zeroLocs ∧ m = [] ∧
      ∀ q ∈ (stripZeroRegionsFrom rr).regions, q.hidden = [] := by
  unfold solverAccumulated at h
  cases he : extractRegions b with
  | error e => rw [he, exceptBind_err] at h; cases h
  | ok rr =>
    rw [he, exceptBind_ok] at h
    cases hb : buildLinks (stripZeroRegionsFrom rr).regions with
    | error e => rw [hb, exceptBind_err] at h; cases h
    | ok links =>
      rw [hb, exceptBind_ok] at h
      obtain ⟨hlinks, hempty⟩ := buildLinks_strip_ok hb
      subst hlinks
      rw [propLoop_nil] at h
      cases h
      exact ⟨rr, rfl, rfl, rfl, hempty⟩

/-- A region with zero mines lands (after the swap) in the residual list,
with the strip-phase locations filtered out of its hidden set. -/
lemma strip_mem_regions {rr : List Region} {r : Region}
    (hr : r ∈ rr) (hm : r.mines = 0) :
    (⟨r.mines, r.hidden.filter
        (fun l => !decide (l ∈ (stripZeroRegionsFrom rr).zeroLocs))⟩ : Region)
      ∈ (stripZeroRegionsFrom rr).regions := by
  unfold stripZeroRegionsFrom
  simp only [List.mem_map]
  refine ⟨r, ?_, rfl⟩
  simp [List.mem_filter, hr, hm]

/-- C1.  The claim reads: for overlapping regions satisfying the Region
invariant, `deduceLink` returns the feasible triples for every shared count
`ms` between `max(0, A.requiredMines - len r0, B.requiredMines - len r1)`
and `min(len rs, A.requiredMines, B.requiredMines)`.  The code instead takes
the maximum of the three upper bounds and then computes
`p0_mines - rs_mines` on `usize`, so already for `A = B` with one required
mine over two shared hidden cells - both parents satisfying
`requiredMines <= len hidden` - the enumeration underflows and panics at
`ms = 2`, while the specified feasible set is exactly the single triple
`(0, 1, 0)`. -/
theorem c1_deduce_links_uses_max_and_underflows :
    establishRegionalLinks ⟨1, [(0, 0), (1, 0)]⟩ ⟨1, [(0, 0), (1, 0)]⟩
      = .error subUnderflowMsg ∧
    specFeasibleTriples ⟨1, [(0, 0), (1, 0)]⟩ ⟨1, [(0, 0), (1, 0)]⟩
      = [(0, 1, 0)] := by
  constructor
  · decide
  · decide

/-- C2.  On every board snapshot on which extraction and linking succeed,
the propagation loop of `calculate_known_cells` terminates at a fixpoint.
In this code that holds because a successful linking phase always yields an
empty queue (see `buildLinks_strip_ok`), so the loop stops at once - after
zero unproductive passes, which equals the queue length - leaving the
accumulated sets unchanged, for every fuel bound. -/
theorem c2_propagation_loop_terminates (b : Board) (rr : List Region)
    (links : List LinkedSubRegion)
    (_hextract : extractRegions b = .ok rr)
    (hlink : buildLinks (stripZeroRegionsFrom rr).regions = .ok links) :
    ∀ fuel regions z m, propLoop fuel links regions z m = .ok (z, m) := by
  obtain rfl : links = [] := (buildLinks_strip_ok hlink).1
  intro fuel regions z m
  exact propLoop_nil fuel regions z m

/-- Witness for C2 at a concrete 1 x 1 board whose extraction and linking
succeed. -/
theorem c2_propagation_loop_terminates_witness :
    propLoop 5 [] [] ([] : List Loc) ([] : List Loc) = .ok ([], []) :=
  c2_propagation_loop_terminates trivialBoard [⟨0, []⟩] []
    (by decide) (by decide) 5 [] [] []

/-- C3.  Whenever `calculate_known_cells` returns `Ok(Some(..))`, the two
returned sets are disjoint: their intersection (as computed by the
`split_sets` intersection the solver itself uses) is empty.  In this code
the mine set of every successful run is empty - the propagation queue is
always empty on success - so the intersection is empty. -/
theorem c3_known_cells_safe_mines_disjoint (b : Board) (kc : KnownCells)
    (h : calculateKnownCells b = .ok (some kc)) :
    listInter kc.empty kc.mines = [] := by
  unfold calculateKnownCells at h
  cases hA : solverAccumulated b with
  | error e => rw [hA, exceptBind_err] at h; cases h
  | ok acc =>
    obtain ⟨z, m⟩ := acc
    rw [hA, exceptBind_ok] at h
    obtain ⟨rr, _, _, hmm, _⟩ := solverAccumulated_ok hA
    subst hmm
    by_cases hc : z = ([] : List Loc) ∧ ([] : List Loc) = ([] : List Loc)
    · rw [if_pos hc, exceptPure_eq] at h
      simp at h
    · rw [if_neg hc, exceptPure_eq] at h
      simp only [Except.ok.injEq, Option.some.injEq] at h
      subst h
      simp [listInter]

/-- Witness for C3 at a concrete board returning `Ok(Some(..))`. -/
theorem c3_known_cells_safe_mines_disjoint_witness :
    listInter (KnownCells.mk [(0, 1), (1, 0), (1, 1)] []).empty
      (KnownCells.mk [(0, 1), (1, 0), (1, 1)] []).mines = [] :=
  c3_known_cells_safe_mines_disjoint boardG ⟨[(0, 1), (1, 0), (1, 1)], []⟩
    (by decide)

/-- C4.  The claim reads: a numbered cell with more marked neighbors than
its number makes `calculate_known_cells` return a typed
`Err(FlagOvercount)`.  The code instead hits
`assert!(num_watched_mines != 0)` inside `region_around` and panics; its
error type is the unit type, no `FlagOvercount` value exists anywhere, and
no `Err` is ever produced.  On the board whose revealed 1 has two marked
neighbors, the whole solve call ends in the assert panic. -/
theorem c4_flag_overcount_is_assert_panic :
    regionAround boardE (0, 0) = .error overMarkAssertMsg ∧
    calculateKnownCells boardE = .error overMarkAssertMsg := by
  constructor
  · decide
  · decide

/-- C5.  The claim reads: a link whose feasible set becomes empty during
propagation surfaces a typed `EmptyFeasibilitySet` failure.  The code has
no such value: `LinkedSubRegion::remove_empty` runs
`assert!(self.mine_sets.len() != 1)` after refiltering, so a feasible set
that became empty is passed through silently (first conjunct), while the
legitimate forced state of exactly one remaining triple is what panics
(second conjunct). -/
theorem c5_empty_feasible_set_not_surfaced :
    lsrRemoveEmpty ⟨[(0, 1, 0)], [], [(0, 0)], []⟩ [(0, 0)]
      = .ok ⟨[], [], [], []⟩ ∧
    lsrRemoveEmpty ⟨[(0, 0, 0)], [], [(0, 0)], []⟩ []
      = .error emptySetAssertMsg := by
  constructor
  · decide
  · decide

/-- C6.  The claim reads: the global region has `requiredMines` equal to
the board total mine count minus the marked-cell count.  On `boardF` the
claimed value is `1 - 1 = 0`, but the live extraction path
`Solver::board_region` counts the mines among hidden cells and returns 1,
and the refactored `Region::board` - which does implement total minus
flagged - panics on its `assert!(num_flagged < num_mines)` even though the
snapshot is a legitimate board state. -/
theorem c6_global_region_formula_divergence :
    totalMineCount boardF - markedCellCount boardF = 0 ∧
    boardRegion boardF = .ok ⟨1, [(0, 0)]⟩ ∧
    regionBoard boardF = .error flagAssertMsg := by
  refine ⟨by decide, by decide, by decide⟩

/-- C7.  On every snapshot on which `calculate_known_cells` returns `Ok`,
every extracted region with zero required mines has all of its hidden cells
in the returned safe set.  This holds, though for a degenerate reason: the
swapped strip step makes every zero-mine region residual, and a successful
linking phase forces each residual hidden set to be empty, i.e. already
contained in the strip-phase safe set that the result carries. -/
theorem c7_zero_mine_regions_all_safe (b : Board) (rr : List Region)
    (res : Option KnownCells) (r : Region) (loc : Loc)
    (hrr : extractRegions b = .ok rr)
    (hres : calculateKnownCells b = .ok res)
    (hr : r ∈ rr) (hm : r.mines = 0) (hloc : loc ∈ r.hidden) :
    loc ∈ knownSafe res := by
  unfold calculateKnownCells at hres
  cases hA : solverAccumulated b with
  | error e => rw [hA, exceptBind_err] at hres; cases hres
  | ok acc =>
    obtain ⟨z, m⟩ := acc
    rw [hA, exceptBind_ok] at hres
    obtain ⟨rr2, hrr2, hz, hmm, hempty⟩ := solverAccumulated_ok hA
    rw [hrr] at hrr2
    simp only [Except.ok.injEq] at hrr2
    subst hrr2
    have hq := hempty _ (strip_mem_regions hr hm)
    have hzl : loc ∈ (stripZeroRegionsFrom rr).zeroLocs := by
      by_contra hn
      have hmem : loc ∈ r.hidden.filter
          (fun l => !decide (l ∈ (stripZeroRegionsFrom rr).zeroLocs)) := by
        simp [List.mem_filter, hloc, hn]
      rw [show (⟨r.mines, r.hidden.filter
            (fun l => !decide (l ∈ (stripZeroRegionsFrom rr).zeroLocs))⟩ : Region).hidden
          = r.hidden.filter
            (fun l => !decide (l ∈ (stripZeroRegionsFrom rr).zeroLocs)) from rfl]
        at hq
      rw [hq] at hmem
      simp at hmem
    subst hz
    subst hmm
    by_cases hc : (stripZeroRegionsFrom rr).zeroLocs = ([] : List Loc)
        ∧ ([] : List Loc) = ([] : List Loc)
    · exfalso
      rw [hc.1] at hzl
      simp at hzl
    · rw [if_neg hc, exceptPure_eq] at hres
      simp only [Except.ok.injEq] at hres
      subst hres
      exact hzl

/-- Witness for C7 at a concrete board with a zero-mine extracted region
whose hidden cells end up in the returned safe set. -/
theorem c7_zero_mine_regions_all_safe_witness :
    ((0, 1) : Loc) ∈ knownSafe (some ⟨[(0, 1), (1, 1)], []⟩) :=
  c7_zero_mine_regions_all_safe boardC
    [⟨2, [(0, 1), (1, 1)]⟩, ⟨0, [(0, 1), (1, 1)]⟩]
    (some ⟨[(0, 1), (1, 1)], []⟩)
    ⟨0, [(0, 1), (1, 1)]⟩ (0, 1)
    (by decide) (by decide) (by decide) (by decide) (by decide)

/-- C8.  The claim reads: every extracted region whose required mines equal
its hidden-set size has all of its hidden cells in the returned mines set.
On `boardG` both extracted regions have 3 required mines over 3 hidden
cells, yet the solve call returns those very cells in the SAFE set and an
empty mines set: the swapped partition of `strip_zero_regions_from` dumps
the hidden cells of every nonzero region into `zero_locs`, and
`strip_mine_regions_from` is never called by `calculate_known_cells`. -/
theorem c8_all_mine_region_cells_marked_safe :
    extractRegions boardG
      = .ok [⟨3, [(0, 1), (1, 0), (1, 1)]⟩, ⟨3, [(1, 0), (0, 1), (1, 1)]⟩] ∧
    (⟨3, [(0, 1), (1, 0), (1, 1)]⟩ : Region).hidden.length
      = (⟨3, [(0, 1), (1, 0), (1, 1)]⟩ : Region).mines ∧
    calculateKnownCells boardG
      = .ok (some ⟨[(0, 1), (1, 0), (1, 1)], []⟩) := by
  refine ⟨by decide, by decide, by decide⟩

/-- C9 (amended).  `calculate_known_cells` returns `Ok(None)` exactly when
nothing was resolved at all - both accumulated sets, the strip-phase
findings included, are empty - and otherwise returns `Ok(Some(..))`
carrying everything accumulated. -/
theorem c9_ok_none_iff_nothing_resolved (b : Board) (z m : List Loc)
    (h : solverAccumulated b = .ok (z, m)) :
    (calculateKnownCells b = .ok none ↔ (z = [] ∧ m = [])) ∧
    ((¬(z = [] ∧ m = [])) → calculateKnownCells b = .ok (some ⟨z, m⟩)) := by
  unfold calculateKnownCells
  rw [h, exceptBind_ok]
  by_cases hc : z = ([] : List Loc) ∧ m = ([] : List Loc)
  · rw [if_pos hc]
    exact ⟨⟨fun _ => hc, fun _ => rfl⟩, fun hn => absurd hc hn⟩
  · rw [if_neg hc]
    refine ⟨⟨fun hh => ?_, fun hh => absurd hh hc⟩, fun _ => rfl⟩
    rw [exceptPure_eq] at hh
    simp at hh

/-- Witness for C9 (amended) at the trivial board, on which nothing is
resolved and the call returns `Ok(None)`. -/
theorem c9_ok_none_iff_nothing_resolved_witness :
    (calculateKnownCells trivialBoard = .ok none
        ↔ (([] : List Loc) = [] ∧ ([] : List Loc) = [])) ∧
    ((¬(([] : List Loc) = [] ∧ ([] : List Loc) = [])) →
        calculateKnownCells trivialBoard = .ok (some ⟨[], []⟩)) :=
  c9_ok_none_iff_nothing_resolved trivialBoard [] [] (by decide)

/-- Counterexample to C9 as stated.  On `boardC` nothing new is resolved
beyond the strip phase - the accumulated pair equals the strip-phase safe
set with an empty mine set - yet the call returns `Ok(Some(..))`, not
`Ok(None)`. -/
theorem c9_claimed_condition_counterexample :
    extractRegions boardC
      = .ok [⟨2, [(0, 1), (1, 1)]⟩, ⟨0, [(0, 1), (1, 1)]⟩] ∧
    (stripZeroRegionsFrom
        [⟨2, [(0, 1), (1, 1)]⟩, ⟨0, [(0, 1), (1, 1)]⟩]).zeroLocs
      = [(0, 1), (1, 1)] ∧
    solverAccumulated boardC = .ok ([(0, 1), (1, 1)], []) ∧
    calculateKnownCells boardC = .ok (some ⟨[(0, 1), (1, 1)], []⟩) := by
  refine ⟨by decide, by decide, by decide, by decide⟩

/-- C10.  The claim reads: on a well-formed, contradiction-free snapshot,
`calculate_known_cells` completes with no assertion failure and no
arithmetic underflow.  `boardD` is such a snapshot - its single mine is
correctly flagged, its numbers are consistent, extraction succeeds - yet
the feasible-triple enumeration underflows on `usize` (`0 - 1` at `ms = 1`
while self-linking a zero-mine residual region) and the call panics. -/
theorem c10_contradiction_free_board_panics :
    extractRegions boardD
      = .ok [⟨0, [(1, 1)]⟩, ⟨0, [(1, 1)]⟩, ⟨0, [(1, 1)]⟩] ∧
    calculateKnownCells boardD = .error subUnderflowMsg := by
  constructor
  · decide
  · decide
